import Mathlib

/-!
# Verification of the ask-singapore cohort sampling and sentiment pipeline

Shallow embedding of the core data model and algorithms of the repository:
the filter engine (`filterPersonas`), the stratified sampler
(`sampleFromCandidates`), the sentiment aggregator (`aggregateSentiment`),
the reply constructor of `generatePersonaReply`'s success path, the ask
endpoint's post-fan-out decision logic, and the persona-store cache.

Modelling conventions:
* JS strings are `List Char`; `toLowerCase`/`toUpperCase`/`trim`/`includes`
  are embedded character-wise.
* JS numbers are `ℚ` (exact arithmetic; the code's arithmetic on scores is
  sums, divisions and a 3-decimal rounding, all exact on `ℚ`).
* JS `Map` objects are insertion-ordered association lists, with `set`
  updating an existing key in place and appending a fresh key.
* `Math.random`-driven choices are universally quantified oracles: the two
  `shuffle` calls are arbitrary permutation-producing functions and the
  per-area pick is an arbitrary member-choosing function.
-/

namespace AskSingapore

/-- A JS string as a list of characters. -/
abbrev Str := List Char

/-- Whitespace test used by the embeddings of `trim()` and `/\s+/`. -/
def isWsChar (c : Char) : Bool :=
  c = ' ' || c = '\t' || c = '\n' || c = '\r' || c = '\x0b' || c = '\x0c'

/-- Embedding of `String.prototype.trim()`. -/
def trimStr (s : Str) : Str :=
  ((s.dropWhile isWsChar).reverse.dropWhile isWsChar).reverse

/-- Embedding of `String.prototype.toLowerCase()` (ASCII-faithful). -/
def lowerStr (s : Str) : Str := s.map Char.toLower

/-- Embedding of `String.prototype.toUpperCase()` (ASCII-faithful). -/
def upperStr (s : Str) : Str := s.map Char.toUpper

/-- Collapse every maximal run of whitespace characters into a single
space: embedding of `.replace(/\s+/g, " ")`. -/
def collapseWs : Str → Str
  | [] => []
  | c :: rest =>
    if isWsChar c then
      match rest with
      | [] => [' ']
      | d :: t =>
        if isWsChar d then collapseWs (d :: t) else ' ' :: collapseWs (d :: t)
    else c :: collapseWs rest

/-- `normalizePlanningArea` from `src/lib/utils.ts`:
`value.trim().toUpperCase().replace(/\s+/g, " ")`. -/
def normalizePlanningArea (value : Str) : Str :=
  collapseWs (upperStr (trimStr value))

/-- The three-way sentiment label of `SentimentSchema`. -/
inductive Sentiment where
  | positive
  | neutral
  | negative
deriving DecidableEq, Repr

/-- `Persona` from `src/lib/schemas.ts` (all text fields kept). -/
structure Persona where
  uuid : Str
  age : Int
  sex : Str
  occupation : Str
  education_level : Str
  marital_status : Str
  planning_area : Str
  persona : Str
  cultural_background : Str
  skills_and_expertise : Str
  hobbies_and_interests : Str
  career_goals_and_ambitions : Str
deriving DecidableEq, Repr

/-- The demographic sub-record carried by each `PersonaResponse`. -/
structure PersonaProfile where
  age : Int
  sex : Str
  occupation : Str
  education_level : Str
deriving DecidableEq, Repr

/-- `PersonaResponse` from `src/lib/schemas.ts`: the per-persona record the
aggregator consumes.  `score` is `Option ℚ`; `none` models a `score` field
whose runtime value is not a number (the defensive `typeof` check). -/
structure PersonaResponse where
  uuid : Str
  planning_area : Str
  profile : PersonaProfile
  answer : Str
  reasoning : Str
  area_context : Str
  sentiment : Sentiment
  stance : Int
  confidence : ℚ
  score : Option ℚ
deriving DecidableEq, Repr

/-- `getSentimentScore` from `src/lib/utils.ts`. -/
def getSentimentScore : Sentiment → ℚ
  | .positive => 1
  | .negative => -1
  | .neutral => 0

/-- `scoreToSentiment` from `src/lib/utils.ts`: fixed-threshold bucketing. -/
def scoreToSentiment (score : ℚ) : Sentiment :=
  if score > 3/10 then .positive
  else if score < -(3/10) then .negative
  else .neutral

/-- `stanceToSentiment` from `src/lib/utils.ts`. -/
def stanceToSentiment (stance : Int) : Sentiment :=
  if stance > 0 then .positive
  else if stance < 0 then .negative
  else .neutral

/-- The effective per-reply score used by `aggregateSentiment`:
`typeof response.score === "number" ? response.score :
getSentimentScore(response.sentiment)`. -/
def responseScore (r : PersonaResponse) : ℚ :=
  match r.score with
  | some s => s
  | none => getSentimentScore r.sentiment

/-- One area's accumulator in the aggregator's `bucket` map. -/
abbrev AreaAccum := ℚ × Nat

/-- `bucket.set(area, current)` where `current` starts from the existing
entry (or `{totalScore: 0, count: 0}`) and adds this reply's score. -/
def bucketAdd (bucket : List (Str × AreaAccum)) (area : Str) (sc : ℚ) :
    List (Str × AreaAccum) :=
  if bucket.any (fun e => e.1 = area) then
    bucket.map (fun e => if e.1 = area then (e.1, (e.2.1 + sc, e.2.2 + 1)) else e)
  else
    bucket ++ [(area, (sc, 1))]

/-- The mutable state of `aggregateSentiment`'s single pass. -/
structure AggState where
  positive : Nat
  neutral : Nat
  negative : Nat
  totalScore : ℚ
  bucket : List (Str × AreaAccum)
deriving DecidableEq, Repr

/-- One iteration of the `for (const response of responses)` loop in
`src/lib/sentiment.ts`. -/
def aggStep (st : AggState) (r : PersonaResponse) : AggState :=
  { positive := st.positive + (if r.sentiment = .positive then 1 else 0)
    neutral := st.neutral + (if r.sentiment = .neutral then 1 else 0)
    negative := st.negative + (if r.sentiment = .negative then 1 else 0)
    totalScore := st.totalScore + responseScore r
    bucket := bucketAdd st.bucket r.planning_area (responseScore r) }

/-- The `summary` part of the aggregate result. -/
structure Summary where
  total : Nat
  positive : Nat
  neutral : Nat
  negative : Nat
  mean_score : ℚ
deriving DecidableEq, Repr

/-- One entry of the `area_sentiments` object. -/
structure AreaSentiment where
  count : Nat
  score : ℚ
  sentiment : Sentiment
deriving DecidableEq, Repr

/-- `aggregateSentiment` from `src/lib/sentiment.ts`.  The returned
`area_sentiments` object is an insertion-ordered association list. -/
def aggregateSentiment (responses : List PersonaResponse) :
    Summary × List (Str × AreaSentiment) :=
  let st := responses.foldl aggStep ⟨0, 0, 0, 0, []⟩
  ( { total := responses.length
      positive := st.positive
      neutral := st.neutral
      negative := st.negative
      mean_score := if 0 < responses.length then st.totalScore / responses.length else 0 },
    st.bucket.map (fun e =>
      (e.1, { count := e.2.2
              score := e.2.1 / e.2.2
              sentiment := scoreToSentiment (e.2.1 / e.2.2) })) )

/-- A concrete reply used to instantiate the aggregator theorems, mirroring
the record helper of `src/lib/sentiment.test.ts`. -/
def mkDemoResponse (uuid area : Str) (sentiment : Sentiment) (score : Option ℚ) :
    PersonaResponse :=
  { uuid := uuid
    planning_area := area
    profile := ⟨28, ['F'], ['D', 'e', 's'], ['D', 'i', 'p']⟩
    answer := ['o', 'k']
    reasoning := []
    area_context := []
    sentiment := sentiment
    stance := 0
    confidence := 1/2
    score := score }

/-- Three concrete replies spanning two areas; the second has a
non-number score and falls back to its (neutral) sentiment. -/
def aggDemoReplies : List PersonaResponse :=
  [ mkDemoResponse ['1'] ['A'] .positive (some (8/10)),
    mkDemoResponse ['2'] ['A'] .neutral none,
    mkDemoResponse ['3'] ['B'] .negative (some (-1)) ]

/-- The aggregate the code produces for area `A` of `aggDemoReplies`:
two replies, mean score `0.4`, bucketed `positive`. -/
def aggDemoArea : AreaSentiment := ⟨2, 2/5, .positive⟩

/-- The picked map is well-formed: every entry is keyed by its persona's
uuid, and every picked persona comes from the candidate pool. -/
def EntriesOk (candidates : List Persona) (picked : List (Str × Persona)) : Prop :=
  ∀ e ∈ picked, e.1 = e.2.uuid ∧ e.2 ∈ candidates

/-- First-match lookup in an insertion-ordered association list
(the read side of a JS `Map`). -/
def entryOf {α : Type} : List (Str × α) → Str → Option α
  | [], _ => none
  | e :: t, a => if e.1 = a then some e.2 else entryOf t a

/-- The key list of an association list. -/
def keysOf {α : Type} (m : List (Str × α)) : List Str := m.map Prod.fst

/-- The bucket accumulated by the aggregator's pass, as a standalone fold. -/
def bucketFold (rs : List PersonaResponse) : List (Str × AreaAccum) :=
  rs.foldl (fun b r => bucketAdd b r.planning_area (responseScore r)) []

/-- `SamplingFilters` from `src/lib/sampling.ts`.  `none` models an absent
optional field. -/
structure SamplingFilters where
  age_min : Int
  age_max : Int
  sex : Option Str
  occupation_query : Option Str
  planning_area_query : Option Str
  occupations : Option (List Str)
  planning_areas : Option (List Str)
deriving DecidableEq, Repr

/-- JS truthiness of an optional string: present and nonempty. -/
def optActive : Option Str → Bool
  | none => false
  | some s => !s.isEmpty

/-- `needle` is a leading segment of `hay` (helper for `includes`). -/
def leadsWith : Str → Str → Bool
  | _, [] => true
  | [], _ :: _ => false
  | a :: s, b :: t => a = b && leadsWith s t

/-- Embedding of `String.prototype.includes`: `needle` occurs as a
contiguous segment of `hay`. -/
def strIncludes : Str → Str → Bool
  | [], needle => needle.isEmpty
  | c :: t, needle => leadsWith (c :: t) needle || strIncludes t needle

/-- `filterPersonas` from `src/lib/sampling.ts`: the pure filter engine. -/
def filterPersonas (personas : List Persona) (filters : SamplingFilters) :
    List Persona :=
  let ageMin := min filters.age_min filters.age_max
  let ageMax := max filters.age_min filters.age_max
  let sexQuery := filters.sex.map (fun s => trimStr (lowerStr s))
  let occupationQuery := filters.occupation_query.map (fun s => trimStr (lowerStr s))
  let areaQuery := filters.planning_area_query.map (fun s => trimStr (lowerStr s))
  let occupations :=
    ((filters.occupations.getD []).map (fun s => trimStr (lowerStr s))).filter
      (fun s => !s.isEmpty)
  let planningAreas :=
    ((filters.planning_areas.getD []).map (fun s => trimStr (lowerStr s))).filter
      (fun s => !s.isEmpty)
  personas.filter (fun p =>
    if p.age < ageMin || ageMax < p.age then false
    else if optActive sexQuery && !(lowerStr p.sex = sexQuery.getD []) then false
    else if !occupations.isEmpty &&
        !(occupations.any (fun q => q = trimStr (lowerStr p.occupation))) then false
    else if !planningAreas.isEmpty &&
        !(planningAreas.any (fun q => q = trimStr (lowerStr p.planning_area))) then false
    else if optActive occupationQuery &&
        !(strIncludes (lowerStr p.occupation) (occupationQuery.getD [])) then false
    else if optActive areaQuery &&
        !(strIncludes (lowerStr p.planning_area) (areaQuery.getD [])) then false
    else true)

/-- The claim-side reading of the filter contract: the predicates that are
active in a filter specification, written independently of the filter's
control flow.  A textual predicate is active when the field is present and
nonempty after normalization; an explicit set constraint is active when
the normalized set is nonempty (matching the `filter(Boolean)` and
truthiness guards of the source). -/
def MatchesFilterSpec (filters : SamplingFilters) (p : Persona) : Prop :=
  (min filters.age_min filters.age_max ≤ p.age ∧
    p.age ≤ max filters.age_min filters.age_max) ∧
  (optActive (filters.sex.map (fun s => trimStr (lowerStr s))) = true →
    lowerStr p.sex = (filters.sex.map (fun s => trimStr (lowerStr s))).getD []) ∧
  (((filters.occupations.getD []).map (fun s => trimStr (lowerStr s))).filter
      (fun s => !s.isEmpty) ≠ [] →
    trimStr (lowerStr p.occupation) ∈
      ((filters.occupations.getD []).map (fun s => trimStr (lowerStr s))).filter
        (fun s => !s.isEmpty)) ∧
  (((filters.planning_areas.getD []).map (fun s => trimStr (lowerStr s))).filter
      (fun s => !s.isEmpty) ≠ [] →
    trimStr (lowerStr p.planning_area) ∈
      ((filters.planning_areas.getD []).map (fun s => trimStr (lowerStr s))).filter
        (fun s => !s.isEmpty)) ∧
  (optActive (filters.occupation_query.map (fun s => trimStr (lowerStr s))) = true →
    strIncludes (lowerStr p.occupation)
      ((filters.occupation_query.map (fun s => trimStr (lowerStr s))).getD []) = true) ∧
  (optActive (filters.planning_area_query.map (fun s => trimStr (lowerStr s))) = true →
    strIncludes (lowerStr p.planning_area)
      ((filters.planning_area_query.map (fun s => trimStr (lowerStr s))).getD []) = true)

/-- The random choices `sampleFromCandidates` makes, as explicit oracles:
the two `shuffle(...)` calls and the uniform pick inside each area group
(the latter keyed by the area, which the loop visits at most once). -/
structure SamplingOracle where
  shuffleAreas : List Str → List Str
  pickInArea : Str → List Persona → Persona
  shuffleFill : List Persona → List Persona

/-- An oracle is a possible outcome of the random source: shuffles return
permutations and the in-area pick returns a member of a nonempty group. -/
def OracleValid (o : SamplingOracle) : Prop :=
  (∀ l, List.Perm (o.shuffleAreas l) l) ∧
  (∀ a l, l ≠ [] → o.pickInArea a l ∈ l) ∧
  (∀ l, List.Perm (o.shuffleFill l) l)

/-- JS `Map.set`: update an existing key in place, else append. -/
def mapSet (m : List (Str × Persona)) (k : Str) (v : Persona) :
    List (Str × Persona) :=
  if m.any (fun e => e.1 = k) then m.map (fun e => if e.1 = k then (k, v) else e)
  else m ++ [(k, v)]

/-- The diversity phase of `sampleFromCandidates`: visit the (shuffled)
areas, picking one persona per area into the `picked` map, stopping once
`sampleSize` entries are picked. -/
def diversityLoop (pick : Str → List Persona → Persona) (sampleSize : Nat)
    (byArea : Str → List Persona) :
    List Str → List (Str × Persona) → List (Str × Persona)
  | [], picked => picked
  | area :: rest, picked =>
    if sampleSize ≤ picked.length then picked
    else
      match byArea area with
      | [] => diversityLoop pick sampleSize byArea rest picked
      | _ :: _ =>
        diversityLoop pick sampleSize byArea rest
          (mapSet picked (pick area (byArea area)).uuid (pick area (byArea area)))

/-- The fill phase of `sampleFromCandidates`: walk the shuffled candidates,
adding any persona whose uuid is not yet picked, until `sampleSize`. -/
def fillLoop (sampleSize : Nat) :
    List Persona → List (Str × Persona) → List (Str × Persona)
  | [], picked => picked
  | p :: rest, picked =>
    if sampleSize ≤ picked.length then picked
    else if picked.any (fun e => e.1 = p.uuid) then fillLoop sampleSize rest picked
    else fillLoop sampleSize rest (picked ++ [(p.uuid, p)])

/-- The distinct `planning_area` values among the candidates (the key set
of the `byArea` map the code builds). -/
def candidateAreas (candidates : List Persona) : List Str :=
  (candidates.map (fun p => p.planning_area)).dedup

/-- One area's group: the candidates whose `planning_area` equals `a`
(the value `byArea.get(a)` holds). -/
def areaGroup (candidates : List Persona) (a : Str) : List Persona :=
  candidates.filter (fun p => p.planning_area = a)

/-- `sampleFromCandidates` from `src/lib/sampling.ts`, parameterized by the
random-choice oracle. -/
def sampleFromCandidates (o : SamplingOracle) (candidates : List Persona)
    (sampleSize : Nat) : List Persona :=
  if candidates.isEmpty then []
  else
    let areas := o.shuffleAreas (candidateAreas candidates)
    let picked := diversityLoop o.pickInArea sampleSize (areaGroup candidates) areas []
    let picked2 :=
      if picked.length < sampleSize then
        fillLoop sampleSize (o.shuffleFill candidates) picked
      else picked
    picked2.map (fun e => e.2)

/-- A default persona (used only by the deterministic demo oracle). -/
def defaultPersona : Persona :=
  ⟨['x'], 30, ['M'], ['E'], ['B'], ['S'], ['A'], ['p'], [], [], [], []⟩

/-- The deterministic outcome where both shuffles leave order unchanged and
each area pick takes the first group member. -/
def idOracle : SamplingOracle :=
  ⟨fun l => l, fun _ l => l.headD defaultPersona, fun l => l⟩

/-- A persona with the given uuid and area, mirroring the record helper of
`src/lib/sampling.test.ts`. -/
def mkTestPersona (uuid area : Str) : Persona :=
  { uuid := uuid
    age := 30
    sex := ['M', 'a', 'l', 'e']
    occupation := ['E', 'n', 'g']
    education_level := ['B', 'a']
    marital_status := ['S', 'i']
    planning_area := area
    persona := ['T', 'p']
    cultural_background := ['T']
    skills_and_expertise := ['T']
    hobbies_and_interests := ['T']
    career_goals_and_ambitions := ['T'] }

/-- A persona matching the filter demo: 22-year-old female student in
Tampines (mirrors `src/lib/sampling.test.ts`). -/
def demoPersonaA : Persona :=
  { mkTestPersona ['a'] ['T', 'A', 'M', 'P', 'I', 'N', 'E', 'S'] with
    age := 22
    sex := ['F', 'e', 'm', 'a', 'l', 'e']
    occupation := ['S', 't', 'u', 'd', 'e', 'n', 't'] }

/-- The personas of the filter test: only `demoPersonaA` passes. -/
def demoFilterPersonas : List Persona :=
  [ demoPersonaA,
    { mkTestPersona ['b'] ['B', 'E', 'D', 'O', 'K'] with age := 24 },
    { mkTestPersona ['c'] ['T', 'A', 'M', 'P', 'I', 'N', 'E', 'S'] with
      age := 34
      sex := ['F', 'e', 'm', 'a', 'l', 'e']
      occupation := ['T', 'e', 'a', 'c', 'h', 'e', 'r'] } ]

/-- The filter specification of the filter test: age 20-25, sex `female`,
occupation query `stud`, area query `tam`. -/
def demoFilters : SamplingFilters :=
  { age_min := 20
    age_max := 25
    sex := some ['f', 'e', 'm', 'a', 'l', 'e']
    occupation_query := some ['s', 't', 'u', 'd']
    planning_area_query := some ['t', 'a', 'm']
    occupations := none
    planning_areas := none }

/-- The outcome of one settled promise in the `Promise.allSettled` fan-out. -/
inductive SettledResult (α : Type) where
  | fulfilled (value : α)
  | rejected (reason : String)
deriving DecidableEq, Repr

/-- `replies.flatMap(r => r.status === "fulfilled" ? [r.value] : [])`. -/
def settledSuccesses {α : Type} (settled : List (SettledResult α)) : List α :=
  (settled.map (fun r => match r with
    | .fulfilled v => [v]
    | .rejected _ => [])).flatten

/-- A reply generator whose calls all fail (demo oracle for the handler). -/
def demoGenFail : Persona → SettledResult Nat := fun _ => .rejected "boom"

/-- A reply generator whose calls all succeed (demo oracle). -/
def demoGenOk : Persona → SettledResult Nat := fun _ => .fulfilled 0

/-- The terminal outcome of the `/api/ask` handler, restricted to the
shapes the claims are about: the 404 no-match response, the 502
insufficient-quorum response, and the 200 success payload with its
warnings list. -/
inductive AskOutcome (α : Type) where
  | noMatch (status : Nat)
  | quorumFailure (status : Nat) (failedCalls successfulCalls : Nat)
  | ok (status : Nat) (responses : List α) (warnings : List String)
deriving DecidableEq, Repr

/-- The post-fan-out decision of the `/api/ask` POST handler
(`src/app/api/ask/route.ts`, after `Promise.allSettled`): fewer than 5
successes is a 502 quorum failure; otherwise a 200 payload whose
`warnings` names the number of skipped failures when any call failed. -/
def fanOutDecision {α : Type} (settled : List (SettledResult α)) : AskOutcome α :=
  let responses := settledSuccesses settled
  let failures := settled.length - responses.length
  if responses.length < 5 then .quorumFailure 502 failures responses.length
  else
    .ok 200 responses
      (if 0 < failures then
        [toString failures ++ " persona responses failed and were skipped."]
      else [])

/-- The `/api/ask` POST pipeline from filtering onward, with the reply
generator abstracted as `gen` (one settled outcome per sampled persona):
filter, sample with `Math.min(sample_size, candidates.length)`, return the
404 no-match error when the sample is empty, otherwise fan out and decide. -/
def askHandler {α : Type} (o : SamplingOracle) (gen : Persona → SettledResult α)
    (personas : List Persona) (filters : SamplingFilters) (sampleSize : Nat) :
    AskOutcome α :=
  let candidates := filterPersonas personas filters
  let sampled := sampleFromCandidates o candidates (min sampleSize candidates.length)
  if sampled.isEmpty then .noMatch 404
  else fanOutDecision (sampled.map gen)

/-- `Number((stance * confidence).toFixed(3))`: rounding to 3 decimal
places, ties toward the larger value, on exact rationals. -/
def round3 (x : ℚ) : ℚ := (round (x * 1000) : ℤ) / 1000

/-- The structured reply `generatePersonaReply` resolves with on success. -/
structure GeneratedReply where
  answer : Str
  reasoning : Str
  stance : Int
  confidence : ℚ
  score : ℚ
  sentiment : Sentiment
deriving DecidableEq, Repr

/-- The success path of `generatePersonaReply` (`src/lib/gemini.ts`): from
the provider's validated `stance` and raw `confidence`, clamp the
confidence to `[0,1]`, derive `score = Number((stance*confidence).toFixed(3))`
and derive `sentiment` from the stance sign.  `score` and `sentiment` exist
only as outputs of this construction. -/
def generateReplySuccess (answer reasoning : Str) (stance : Int)
    (rawConfidence : ℚ) : GeneratedReply :=
  let confidence := max 0 (min 1 rawConfidence)
  { answer := answer
    reasoning := reasoning
    stance := stance
    confidence := confidence
    score := round3 (stance * confidence)
    sentiment := stanceToSentiment stance }

/-- The in-memory persona store (`src/lib/persona-store.ts`). -/
structure PersonaStore where
  personas : List Persona
  byArea : List (Str × List Persona)
deriving DecidableEq, Repr

/-- One step of `buildByArea`'s loop: push onto an existing area's list or
start a new one (`Map` get/push/set). -/
def byAreaAdd (m : List (Str × List Persona)) (a : Str) (p : Persona) :
    List (Str × List Persona) :=
  if m.any (fun e => e.1 = a) then
    m.map (fun e => if e.1 = a then (e.1, e.2 ++ [p]) else e)
  else m ++ [(a, [p])]

/-- `buildByArea` from `src/lib/persona-store.ts`. -/
def buildByArea (personas : List Persona) : List (Str × List Persona) :=
  personas.foldl (fun m p => byAreaAdd m (normalizePlanningArea p.planning_area) p) []

/-- Parsing, normalizing and indexing the dataset (the body of the cache
miss in `getPersonaStore`). -/
def buildStore (dataset : List Persona) : PersonaStore :=
  let personas := dataset.map (fun p =>
    { p with planning_area := normalizePlanningArea p.planning_area })
  { personas := personas, byArea := buildByArea personas }

/-- `getPersonaStore` with the module-level `cache` variable made an
explicit input/output: the returned pair is (result, cache after the
call).  A populated cache is returned as-is; a cold call builds the store
from the dataset and installs it. -/
def getPersonaStore (cache : Option PersonaStore) (dataset : List Persona) :
    PersonaStore × Option PersonaStore :=
  match cache with
  | some store => (store, some store)
  | none =>
    let store := buildStore dataset
    (store, some store)

theorem entryOf_append_sing_ne {α : Type} (m : List (Str × α)) (k a : Str) (v : α)
    (h : a ≠ k) : entryOf (m ++ [(k, v)]) a = entryOf m a := by
  induction m with
  | nil =>
    simp only [List.nil_append, entryOf]
    rw [if_neg (fun hc => h hc.symm)]
  | cons e t ih =>
    by_cases he : e.1 = a <;> simp [entryOf, he, ih]

theorem entryOf_none_of_not_any {α : Type} (m : List (Str × α)) (a : Str)
    (h : m.any (fun e => e.1 = a) = false) : entryOf m a = none := by
  induction m with
  | nil => rfl
  | cons e t ih =>
    simp only [List.any_cons, Bool.or_eq_false_iff, decide_eq_false_iff_not] at h
    simp [entryOf, h.1, ih h.2]

theorem entryOf_isSome_of_any {α : Type} (m : List (Str × α)) (a : Str)
    (h : m.any (fun e => e.1 = a) = true) : ∃ v, entryOf m a = some v := by
  induction m with
  | nil => simp at h
  | cons e t ih =>
    by_cases he : e.1 = a
    · exact ⟨e.2, by simp [entryOf, he]⟩
    · simp only [List.any_cons, Bool.or_eq_true, decide_eq_true_eq] at h
      rcases h with h | h


      · exact absurd h he
      · rcases ih h with ⟨v, hv⟩
        exact ⟨v, by simp [entryOf, he, hv]⟩

theorem entryOf_map_upd_self (b : List (Str × AreaAccum)) (area : Str) (sc : ℚ) :
    entryOf
      (b.map (fun e => if e.1 = area then (e.1, (e.2.1 + sc, e.2.2 + 1)) else e)) area =
      (entryOf b area).map (fun sc0 => (sc0.1 + sc, sc0.2 + 1)) := by
  induction b with
  | nil => rfl
  | cons e t ih => by_cases he : e.1 = area <;> simp [entryOf, he, ih]

theorem entryOf_map_upd_other (b : List (Str × AreaAccum)) (area a : Str) (sc : ℚ)
    (h : a ≠ area) :
    entryOf
      (b.map (fun e => if e.1 = area then (e.1, (e.2.1 + sc, e.2.2 + 1)) else e)) a =
      entryOf b a := by
  have hne : ¬ area = a := fun hc => h hc.symm
  induction b with
  | nil => rfl
  | cons e t ih =>
    by_cases he : e.1 = area
    · simp [entryOf, he, hne, ih]
    · by_cases hea : e.1 = a <;> simp [entryOf, he, hea, ih, h]

theorem entryOf_append_self_of_none {α : Type} (m : List (Str × α)) (k : Str) (v : α)
    (h : entryOf m k = none) : entryOf (m ++ [(k, v)]) k = some v := by
  induction m with
  | nil => simp [entryOf]
  | cons e t ih =>
    by_cases he : e.1 = k
    · simp [entryOf, he] at h
    · simp only [entryOf, he, if_false, List.cons_append]
      exact ih (by simpa [entryOf, he] using h)

theorem bucketAdd_entry_self (b : List (Str × AreaAccum)) (area : Str) (sc : ℚ) :
    entryOf (bucketAdd b area sc) area =
      some (match entryOf b area with
            | some sc0 => (sc0.1 + sc, sc0.2 + 1)
            | none => (sc, 1)) := by
  cases hany : b.any (fun e => e.1 = area) with
  | true =>
    rcases entryOf_isSome_of_any b area hany with ⟨v, hv⟩
    simp [bucketAdd, hany, entryOf_map_upd_self, hv]
  | false =>
    have hnone := entryOf_none_of_not_any b area hany
    simp [bucketAdd, hany, entryOf_append_self_of_none b area (sc, 1) hnone, hnone]

theorem bucketAdd_entry_other (b : List (Str × AreaAccum)) (area a : Str) (sc : ℚ)
    (h : a ≠ area) : entryOf (bucketAdd b area sc) a = entryOf b a := by
  cases hany : b.any (fun e => e.1 = area) with
  | true => simp [bucketAdd, hany, entryOf_map_upd_other b area a sc h]
  | false => simp [bucketAdd, hany, entryOf_append_sing_ne b area a _ h]

theorem keysOf_bucketAdd_any_true (b : List (Str × AreaAccum)) (area : Str) (sc : ℚ)
    (hany : b.any (fun e => e.1 = area) = true) :
    keysOf (bucketAdd b area sc) = keysOf b := by
  simp only [bucketAdd, hany, if_true, keysOf, List.map_map]
  refine List.map_congr_left ?_
  intro e _
  by_cases he : e.1 = area <;> simp [he]

theorem keysOf_bucketAdd_any_false (b : List (Str × AreaAccum)) (area : Str) (sc : ℚ)
    (hany : b.any (fun e => e.1 = area) = false) :
    keysOf (bucketAdd b area sc) = keysOf b ++ [area] := by
  simp [bucketAdd, hany, keysOf]

theorem keysOf_bucketAdd_nodup (b : List (Str × AreaAccum)) (area : Str) (sc : ℚ)
    (h : (keysOf b).Nodup) : (keysOf (bucketAdd b area sc)).Nodup := by
  cases hany : b.any (fun e => e.1 = area) with
  | true => rw [keysOf_bucketAdd_any_true b area sc hany]; exact h
  | false =>
    have hnotin : area ∉ keysOf b := by
      intro hmem
      rcases List.mem_map.mp hmem with ⟨e, hin, hkey⟩
      have : b.any (fun e => e.1 = area) = true :=
        List.any_eq_true.mpr ⟨e, hin, by simp [hkey]⟩
      rw [hany] at this
      exact Bool.false_ne_true this
    rw [keysOf_bucketAdd_any_false b area sc hany]
    simpa [List.nodup_append] using ⟨h, hnotin⟩

theorem entryOf_eq_of_mem_of_nodup {α : Type} (m : List (Str × α)) (a : Str) (v : α)
    (hnd : (keysOf m).Nodup) (hm : (a, v) ∈ m) : entryOf m a = some v := by
  induction m with
  | nil => simp at hm
  | cons e t ih =>
    rcases List.mem_cons.mp hm with heq | hmem
    · subst heq
      simp [entryOf]
    · have hkey : a ∈ keysOf t := List.mem_map.mpr ⟨(a, v), hmem, rfl⟩
      have hnd2 : (e.1 :: keysOf t).Nodup := hnd
      have hnd' := List.nodup_cons.mp hnd2
      have hne : e.1 ≠ a := fun hc => hnd'.1 (hc ▸ hkey)
      simp [entryOf, hne, ih hnd'.2 hmem]

theorem foldl_aggStep_bucket (rs : List PersonaResponse) (st : AggState) :
    (rs.foldl aggStep st).bucket =
      rs.foldl (fun b r => bucketAdd b r.planning_area (responseScore r)) st.bucket := by
  induction rs generalizing st with
  | nil => rfl
  | cons r t ih => simp [List.foldl, ih, aggStep]

theorem bucketFold_entry (rs : List PersonaResponse) (a : Str) :
    entryOf (bucketFold rs) a =
      if (rs.filter (fun r => r.planning_area = a)).length = 0 then none
      else some (((rs.filter (fun r => r.planning_area = a)).map responseScore).sum,
                 (rs.filter (fun r => r.planning_area = a)).length) := by
  induction rs using List.reverseRecOn with
  | nil => simp [bucketFold, entryOf]
  | append_singleton t r ih =>
    have hfold : bucketFold (t ++ [r]) =
        bucketAdd (bucketFold t) r.planning_area (responseScore r) := by
      simp [bucketFold, List.foldl_append]
    by_cases hr : r.planning_area = a
    · have hfilter : (t ++ [r]).filter (fun x => x.planning_area = a) =
          t.filter (fun x => x.planning_area = a) ++ [r] := by
        simp [List.filter_append, hr]
      rw [hfold, ← hr, bucketAdd_entry_self, hr, ih, hfilter]
      by_cases hlen : (t.filter (fun x => x.planning_area = a)).length = 0
      · have hfe : t.filter (fun x => x.planning_area = a) = [] :=
          List.length_eq_zero.mp hlen


        simp [hlen, hfe]
      · simp only [hlen, if_false]
        simp [add_comm]
    · have hfilter : (t ++ [r]).filter (fun x => x.planning_area = a) =
          t.filter (fun x => x.planning_area = a) := by
        simp [List.filter_append, hr]
      rw [hfold, bucketAdd_entry_other _ _ _ _ (fun hc => hr hc.symm), ih, hfilter]

theorem bucketFold_keys_nodup (rs : List PersonaResponse) :
    (keysOf (bucketFold rs)).Nodup := by
  induction rs using List.reverseRecOn with
  | nil => simp [bucketFold, keysOf]
  | append_singleton t r ih =>
    have hfold : bucketFold (t ++ [r]) =
        bucketAdd (bucketFold t) r.planning_area (responseScore r) := by
      simp [bucketFold, List.foldl_append]
    rw [hfold]
    exact keysOf_bucketAdd_nodup _ _ _ ih

theorem foldl_aggStep_counts (rs : List PersonaResponse) (st : AggState) :
    (rs.foldl aggStep st).positive + (rs.foldl aggStep st).neutral +
      (rs.foldl aggStep st).negative =
      st.positive + st.neutral + st.negative + rs.length := by
  induction rs generalizing st with
  | nil => simp
  | cons r t ih =>
    simp only [List.foldl, List.length_cons, ih, aggStep]
    cases r.sentiment <;> simp <;> omega

theorem foldl_aggStep_totalScore (rs : List PersonaResponse) (st : AggState) :
    (rs.foldl aggStep st).totalScore = st.totalScore + (rs.map responseScore).sum := by
  induction rs generalizing st with
  | nil => simp
  | cons r t ih =>
    simp only [List.foldl, List.map_cons, List.sum_cons, ih, aggStep]
    ring

theorem scoreToSentiment_positive_iff (q : ℚ) :
    scoreToSentiment q = .positive ↔ 3/10 < q := by
  unfold scoreToSentiment
  split_ifs with h1 h2 <;> simp_all

theorem scoreToSentiment_negative_iff (q : ℚ) :
    scoreToSentiment q = .negative ↔ q < -(3/10) := by
  unfold scoreToSentiment
  split_ifs with h1 h2 <;> simp_all
  linarith

theorem scoreToSentiment_neutral_iff (q : ℚ) :
    scoreToSentiment q = .neutral ↔ (¬ 3/10 < q ∧ ¬ q < -(3/10)) := by
  unfold scoreToSentiment
  split_ifs with h1 h2 <;> simp_all

/-- C10: `aggregateSentiment` on the empty reply list is total: all
counters are `0`, the mean score is the literal `0` (the code guards the
division behind `responses.length > 0`, so no division by zero occurs and
no NaN can arise), and the per-area map is empty. -/
theorem aggregateSentiment_empty :
    aggregateSentiment [] = (⟨0, 0, 0, 0, 0⟩, []) := rfl

/-- C4: for every reply list, the global summary counts satisfy
`positive + neutral + negative = total`, `total` is the number of input
replies, and (for a nonempty input) `mean_score` is the arithmetic mean of
the per-reply scores, where a reply's score falls back to `+1`, `0` or
`-1` derived from its sentiment when the `score` field is not a number
(`responseScore`). -/
theorem aggregateSentiment_summary_spec (rs : List PersonaResponse) :
    (aggregateSentiment rs).1.positive + (aggregateSentiment rs).1.neutral +
        (aggregateSentiment rs).1.negative = (aggregateSentiment rs).1.total ∧
      (aggregateSentiment rs).1.total = rs.length ∧
      (rs ≠ [] →
        (aggregateSentiment rs).1.mean_score = (rs.map responseScore).sum / rs.length) := by
  refine ⟨?_, rfl, ?_⟩
  · have h := foldl_aggStep_counts rs ⟨0, 0, 0, 0, []⟩
    simpa [aggregateSentiment] using h
  · intro hne
    have hlen : 0 < rs.length := List.length_pos.mpr hne
    have h := foldl_aggStep_totalScore rs ⟨0, 0, 0, 0, []⟩
    simp [aggregateSentiment, hlen, h]

/-- C4 witness: three concrete replies (one per sentiment class, the
middle one with a non-number score falling back to `0`). -/
theorem aggregateSentiment_summary_spec_witness :
    (aggregateSentiment aggDemoReplies).1.positive +
        (aggregateSentiment aggDemoReplies).1.neutral +
        (aggregateSentiment aggDemoReplies).1.negative =
        (aggregateSentiment aggDemoReplies).1.total ∧
      (aggregateSentiment aggDemoReplies).1.total = aggDemoReplies.length ∧
      (aggregateSentiment aggDemoReplies).1.mean_score =
        (aggDemoReplies.map responseScore).sum / aggDemoReplies.length := by
  have h := aggregateSentiment_summary_spec aggDemoReplies
  exact ⟨h.1, h.2.1, h.2.2 (by simp [aggDemoReplies])⟩

/-- C5: every area key present in the per-area map has `count ≥ 1`, its
`count` is the number of replies in that area, its `score` is the
arithmetic mean of those replies' scores, and its `sentiment` bucket is
`positive` iff the mean is `> 0.3`, `negative` iff `< -0.3`, and `neutral`
otherwise. -/
theorem aggregateSentiment_area_spec (rs : List PersonaResponse) (a : Str)
    (agg : AreaSentiment) (hmem : (a, agg) ∈ (aggregateSentiment rs).2) :
    1 ≤ agg.count ∧
      agg.count = (rs.filter (fun r => r.planning_area = a)).length ∧
      agg.score =
        ((rs.filter (fun r => r.planning_area = a)).map responseScore).sum / agg.count ∧
      (agg.sentiment = .positive ↔ 3/10 < agg.score) ∧
      (agg.sentiment = .negative ↔ agg.score < -(3/10)) ∧
      (agg.sentiment = .neutral ↔ (¬ 3/10 < agg.score ∧ ¬ agg.score < -(3/10))) := by
  have hbucket : (aggregateSentiment rs).2 =
      (bucketFold rs).map (fun e =>
        (e.1, { count := e.2.2
                score := e.2.1 / e.2.2
                sentiment := scoreToSentiment (e.2.1 / e.2.2) : AreaSentiment })) := by
    simp [aggregateSentiment, foldl_aggStep_bucket, bucketFold]
  rw [hbucket] at hmem
  rcases List.mem_map.mp hmem with ⟨e, hin, heq⟩
  have ha : e.1 = a := congrArg Prod.fst heq
  have hagg : agg = { count := e.2.2
                      score := e.2.1 / e.2.2
                      sentiment := scoreToSentiment (e.2.1 / e.2.2) } :=
    (congrArg Prod.snd heq).symm
  have hentry : entryOf (bucketFold rs) a = some e.2 := by
    rw [← ha]
    exact entryOf_eq_of_mem_of_nodup _ _ _ (bucketFold_keys_nodup rs)
      (by rcases e with ⟨k, v⟩; exact hin)
  rw [bucketFold_entry] at hentry
  by_cases hlen : (rs.filter (fun r => r.planning_area = a)).length = 0
  · simp [hlen] at hentry
  · simp only [hlen, if_false, Option.some.injEq] at hentry
    have hsum : e.2.1 = ((rs.filter (fun r => r.planning_area = a)).map responseScore).sum :=
      (congrArg Prod.fst hentry).symm
    have hcount : e.2.2 = (rs.filter (fun r => r.planning_area = a)).length :=
      (congrArg Prod.snd hentry).symm
    have hc2 : agg.count = e.2.2 := by rw [hagg]
    have hs2 : agg.score = e.2.1 / (e.2.2 : ℚ) := by rw [hagg]
    have hsent : agg.sentiment = scoreToSentiment (e.2.1 / (e.2.2 : ℚ)) := by rw [hagg]
    refine ⟨?_, ?_, ?_, ?_, ?_, ?_⟩
    · rw [hc2, hcount]
      exact Nat.one_le_iff_ne_zero.mpr hlen
    · rw [hc2, hcount]
    · rw [hs2, hc2, hsum, hcount]
    · rw [hsent, hs2]
      exact scoreToSentiment_positive_iff _
    · rw [hsent, hs2]
      exact scoreToSentiment_negative_iff _
    · rw [hsent, hs2]
      exact scoreToSentiment_neutral_iff _

/-- C5 witness: the concrete replies place areas `A` (mean `0.25`,
neutral) and `B` (mean `-1`, negative) in the map; instantiated at `A`. -/
theorem aggregateSentiment_area_spec_witness :
    1 ≤ aggDemoArea.count ∧
      aggDemoArea.count =
        (aggDemoReplies.filter (fun r => r.planning_area = ['A'])).length ∧
      aggDemoArea.score =
        ((aggDemoReplies.filter (fun r => r.planning_area = ['A'])).map
          responseScore).sum / aggDemoArea.count ∧
      (aggDemoArea.sentiment = .positive ↔ 3/10 < aggDemoArea.score) ∧
      (aggDemoArea.sentiment = .negative ↔ aggDemoArea.score < -(3/10)) ∧
      (aggDemoArea.sentiment = .neutral ↔
        (¬ 3/10 < aggDemoArea.score ∧ ¬ aggDemoArea.score < -(3/10))) :=
  aggregateSentiment_area_spec aggDemoReplies ['A'] aggDemoArea (by
    have hb : (aggregateSentiment aggDemoReplies).2 =
        [(['A'], ⟨2, 2/5, .positive⟩), (['B'], ⟨1, (-1 : ℚ), .negative⟩)] := by
      simp +decide only [aggregateSentiment, List.foldl, aggStep, bucketAdd,
        aggDemoReplies, mkDemoResponse, responseScore, getSentimentScore, entryOf,
        List.any_cons, List.any_nil, List.map_cons, List.map_nil]
      norm_num [scoreToSentiment]
    rw [hb]
    simp [aggDemoArea])

theorem any_key_iff {α : Type} (m : List (Str × α)) (k : Str) :
    m.any (fun e => e.1 = k) = true ↔ k ∈ keysOf m := by
  simp only [List.any_eq_true, decide_eq_true_eq, keysOf, List.mem_map]

theorem keysOf_append {α : Type} (l1 l2 : List (Str × α)) :
    keysOf (l1 ++ l2) = keysOf l1 ++ keysOf l2 := by
  simp [keysOf]

theorem mapSet_eq_append (m : List (Str × Persona)) (k : Str) (v : Persona)
    (h : k ∉ keysOf m) : mapSet m k v = m ++ [(k, v)] := by
  have hany : m.any (fun e => e.1 = k) = false := by
    cases hc : m.any (fun e => e.1 = k) with
    | false => rfl
    | true => exact absurd ((any_key_iff m k).mp hc) h
  simp [mapSet, hany]

theorem keysOf_mapSet_mem (m : List (Str × Persona)) (k : Str) (v : Persona)
    (h : k ∈ keysOf m) : keysOf (mapSet m k v) = keysOf m := by
  have hany : m.any (fun e => e.1 = k) = true := (any_key_iff m k).mpr h
  simp only [mapSet, hany, if_true, keysOf, List.map_map]
  refine List.map_congr_left ?_
  intro e _
  by_cases he : e.1 = k <;> simp [he]

theorem length_mapSet_le (m : List (Str × Persona)) (k : Str) (v : Persona) :
    (mapSet m k v).length ≤ m.length + 1 := by
  unfold mapSet
  split <;> simp

theorem length_le_length_mapSet (m : List (Str × Persona)) (k : Str) (v : Persona) :
    m.length ≤ (mapSet m k v).length := by
  unfold mapSet
  split <;> simp

theorem keysOf_mapSet_nodup (m : List (Str × Persona)) (k : Str) (v : Persona)
    (h : (keysOf m).Nodup) : (keysOf (mapSet m k v)).Nodup := by
  by_cases hk : k ∈ keysOf m
  · rw [keysOf_mapSet_mem m k v hk]
    exact h
  · rw [mapSet_eq_append m k v hk]
    have : keysOf (m ++ [(k, v)]) = keysOf m ++ [k] := by simp [keysOf]
    rw [this]
    simpa [List.nodup_append] using ⟨h, hk⟩

theorem mem_mapSet (m : List (Str × Persona)) (k : Str) (v : Persona) :
    ∀ e ∈ mapSet m k v, e = (k, v) ∨ e ∈ m := by
  intro e he
  unfold mapSet at he
  split at he
  · rcases List.mem_map.mp he with ⟨e0, he0, heq⟩
    by_cases h0 : e0.1 = k
    · simp only [h0, if_true] at heq
      exact Or.inl heq.symm
    · simp only [h0, if_false] at heq
      exact Or.inr (heq ▸ he0)
  · rcases List.mem_append.mp he with h | h
    · exact Or.inr h
    · simp only [List.mem_singleton] at h
      exact Or.inl h

theorem entriesOk_keys_subset (candidates : List Persona)
    (picked : List (Str × Persona)) (h : EntriesOk candidates picked) :
    keysOf picked ⊆ candidates.map (fun p => p.uuid) := by
  intro k hk
  rcases List.mem_map.mp hk with ⟨e, he, hkey⟩
  rcases h e he with ⟨h1, h2⟩
  exact List.mem_map.mpr ⟨e.2, h2, by rw [← h1, hkey]⟩

theorem entriesOk_map_uuid (candidates : List Persona)
    (picked : List (Str × Persona)) (h : EntriesOk candidates picked) :
    (picked.map (fun e => e.2)).map (fun p => p.uuid) = keysOf picked := by
  rw [List.map_map, keysOf]
  refine List.map_congr_left ?_
  intro e he
  exact (h e he).1.symm

theorem diversityLoop_inv (pick : Str → List Persona → Persona) (target : Nat)
    (candidates : List Persona)
    (hby : ∀ a, ∀ p ∈ areaGroup candidates a, p ∈ candidates)
    (hpick : ∀ a l, l ≠ [] → pick a l ∈ l) :
    ∀ (as : List Str) (picked : List (Str × Persona)),
      (keysOf picked).Nodup → EntriesOk candidates picked →
      picked.length ≤ target →
      (keysOf (diversityLoop pick target (areaGroup candidates) as picked)).Nodup ∧
      EntriesOk candidates (diversityLoop pick target (areaGroup candidates) as picked) ∧
      (diversityLoop pick target (areaGroup candidates) as picked).length ≤ target ∧
      picked.length ≤ (diversityLoop pick target (areaGroup candidates) as picked).length := by
  intro as
  induction as with
  | nil =>
    intro picked h1 h2 h3
    exact ⟨h1, h2, h3, le_refl _⟩
  | cons area rest ih =>
    intro picked h1 h2 h3
    by_cases hstop : target ≤ picked.length
    · simp only [diversityLoop, if_pos hstop]
      exact ⟨h1, h2, h3, le_refl _⟩
    · have hlt : picked.length < target := lt_of_not_le hstop
      cases hgrp : areaGroup candidates area with
      | nil =>
        simp only [diversityLoop, if_neg hstop, hgrp]
        exact ih picked h1 h2 h3
      | cons x xs =>
        simp only [diversityLoop, if_neg hstop, hgrp]
        have hgrpne : areaGroup candidates area ≠ [] := by rw [hgrp]; simp
        have hsel : pick area (areaGroup candidates area) ∈ areaGroup candidates area :=
          hpick area _ hgrpne
        rw [← hgrp]
        set sel := pick area (areaGroup candidates area) with hseldef
        have hselc : sel ∈ candidates := hby area sel hsel
        have h1' : (keysOf (mapSet picked sel.uuid sel)).Nodup :=
          keysOf_mapSet_nodup picked sel.uuid sel h1
        have h2' : EntriesOk candidates (mapSet picked sel.uuid sel) := by
          intro e he
          rcases mem_mapSet picked sel.uuid sel e he with heq | hmem
          · rw [heq]
            exact ⟨rfl, hselc⟩
          · exact h2 e hmem
        have h3' : (mapSet picked sel.uuid sel).length ≤ target := by
          have := length_mapSet_le picked sel.uuid sel
          omega
        have hmono := length_le_length_mapSet picked sel.uuid sel
        rcases ih (mapSet picked sel.uuid sel) h1' h2' h3' with ⟨g1, g2, g3, g4⟩
        exact ⟨g1, g2, g3, le_trans hmono g4⟩

theorem fillLoop_inv (target : Nat) (candidates : List Persona) :
    ∀ (l : List Persona) (picked : List (Str × Persona)),
      (∀ p ∈ l, p ∈ candidates) →
      (keysOf picked).Nodup → EntriesOk candidates picked →
      picked.length ≤ target →
      (keysOf (fillLoop target l picked)).Nodup ∧
      EntriesOk candidates (fillLoop target l picked) ∧
      (fillLoop target l picked).length ≤ target ∧
      keysOf picked ⊆ keysOf (fillLoop target l picked) := by
  intro l
  induction l with
  | nil =>
    intro picked _ h1 h2 h3
    exact ⟨h1, h2, h3, fun k hk => hk⟩
  | cons p rest ih =>
    intro picked hl h1 h2 h3
    have hlrest : ∀ q ∈ rest, q ∈ candidates := fun q hq => hl q (List.mem_cons_of_mem p hq)
    by_cases hstop : target ≤ picked.length
    · simp only [fillLoop, if_pos hstop]
      exact ⟨h1, h2, h3, fun k hk => hk⟩
    · have hlt : picked.length < target := lt_of_not_le hstop
      by_cases hhas : picked.any (fun e => e.1 = p.uuid) = true
      · simp only [fillLoop, if_neg hstop, hhas, if_true]
        exact ih picked hlrest h1 h2 h3
      · have hhasf : picked.any (fun e => e.1 = p.uuid) = false := by
          cases hc : picked.any (fun e => e.1 = p.uuid) with
          | false => rfl
          | true => exact absurd hc hhas
        simp only [fillLoop, if_neg hstop, hhasf, Bool.false_eq_true, if_false]
        have hnotin : p.uuid ∉ keysOf picked := fun hmem => hhas ((any_key_iff _ _).mpr hmem)
        have h1' : (keysOf (picked ++ [(p.uuid, p)])).Nodup := by
          have : keysOf (picked ++ [(p.uuid, p)]) = keysOf picked ++ [p.uuid] := by
            simp [keysOf]
          rw [this]
          simpa [List.nodup_append] using ⟨h1, hnotin⟩
        have h2' : EntriesOk candidates (picked ++ [(p.uuid, p)]) := by
          intro e he
          rcases List.mem_append.mp he with hm | hm
          · exact h2 e hm
          · simp only [List.mem_singleton] at hm
            rw [hm]
            exact ⟨rfl, hl p (List.mem_cons_self p rest)⟩
        have h3' : (picked ++ [(p.uuid, p)]).length ≤ target := by
          simp only [List.length_append, List.length_singleton]
          omega
        rcases ih (picked ++ [(p.uuid, p)]) hlrest h1' h2' h3' with ⟨g1, g2, g3, g4⟩
        refine ⟨g1, g2, g3, ?_⟩
        intro k hk
        have hk2 : k ∈ keysOf (picked ++ [(p.uuid, p)]) := by
          rw [keysOf_append]
          exact List.mem_append_left _ hk
        exact g4 hk2

theorem fillLoop_length_mono (target : Nat) :
    ∀ (l : List Persona) (picked : List (Str × Persona)),
      picked.length ≤ (fillLoop target l picked).length := by
  intro l
  induction l with
  | nil => intro picked; exact le_refl _
  | cons p rest ih =>
    intro picked
    by_cases hstop : target ≤ picked.length
    · simp only [fillLoop, if_pos hstop]
      exact le_refl _
    · by_cases hhas : picked.any (fun e => e.1 = p.uuid) = true
      · simp only [fillLoop, if_neg hstop, hhas, if_true]
        exact ih picked
      · have hhasf : picked.any (fun e => e.1 = p.uuid) = false := by
          cases hc : picked.any (fun e => e.1 = p.uuid) with
          | false => rfl
          | true => exact absurd hc hhas
        simp only [fillLoop, if_neg hstop, hhasf, Bool.false_eq_true, if_false]
        have := ih (picked ++ [(p.uuid, p)])
        simp only [List.length_append, List.length_singleton] at this
        omega

theorem fillLoop_keys_mono (target : Nat) :
    ∀ (l : List Persona) (picked : List (Str × Persona)),
      keysOf picked ⊆ keysOf (fillLoop target l picked) := by
  intro l
  induction l with
  | nil => intro picked k hk; exact hk
  | cons r t iht =>
    intro picked k hk
    by_cases hs2 : target ≤ picked.length
    · simp only [fillLoop, if_pos hs2]
      exact hk
    · by_cases hh2 : picked.any (fun e => e.1 = r.uuid) = true
      · simp only [fillLoop, if_neg hs2, hh2, if_true]
        exact iht picked hk
      · have hh2f : picked.any (fun e => e.1 = r.uuid) = false := by
          cases hc : picked.any (fun e => e.1 = r.uuid) with
          | false => rfl
          | true => exact absurd hc hh2
        simp only [fillLoop, if_neg hs2, hh2f, Bool.false_eq_true, if_false]
        have hk2 : k ∈ keysOf (picked ++ [(r.uuid, r)]) := by
          rw [keysOf_append]
          exact List.mem_append_left _ hk
        exact iht (picked ++ [(r.uuid, r)]) hk2

theorem fillLoop_exhaust (target : Nat) :
    ∀ (l : List Persona) (picked : List (Str × Persona)),
      (fillLoop target l picked).length < target →
      ∀ p ∈ l, p.uuid ∈ keysOf (fillLoop target l picked) := by
  intro l
  induction l with
  | nil => intro picked _ p hp; simp at hp
  | cons q rest ih =>
    intro picked hshort p hp
    by_cases hstop : target ≤ picked.length
    · simp only [fillLoop, if_pos hstop] at hshort
      omega
    · by_cases hhas : picked.any (fun e => e.1 = q.uuid) = true
      · simp only [fillLoop, if_neg hstop, hhas, if_true] at hshort ⊢
        rcases List.mem_cons.mp hp with heq | hmem
        · subst heq
          have hin : p.uuid ∈ keysOf picked := (any_key_iff _ _).mp hhas
          exact fillLoop_keys_mono target rest picked hin
        · exact ih picked hshort p hmem
      · have hhasf : picked.any (fun e => e.1 = q.uuid) = false := by
          cases hc : picked.any (fun e => e.1 = q.uuid) with
          | false => rfl
          | true => exact absurd hc hhas
        simp only [fillLoop, if_neg hstop, hhasf, Bool.false_eq_true, if_false] at hshort ⊢
        rcases List.mem_cons.mp hp with heq | hmem
        · subst heq
          have hin : p.uuid ∈ keysOf (picked ++ [(p.uuid, p)]) :=
            List.mem_map.mpr
              ⟨(p.uuid, p), List.mem_append_right _ (List.mem_singleton_self _), rfl⟩
          exact fillLoop_keys_mono target rest (picked ++ [(p.uuid, p)]) hin
        · exact ih (picked ++ [(q.uuid, q)]) hshort p hmem

theorem pickedProject_spec (candidates : List Persona) (target : Nat)
    (P : List (Str × Persona)) (hnd : (keysOf P).Nodup)
    (hok : EntriesOk candidates P) (hlen : P.length = min target candidates.length) :
    (P.map (fun e => e.2)).length = min target candidates.length ∧
    ((P.map (fun e => e.2)).map (fun p => p.uuid)).Nodup := by
  constructor
  · rw [List.length_map]
    exact hlen
  · rw [entriesOk_map_uuid candidates P hok]
    exact hnd

theorem keysOf_length {α : Type} (m : List (Str × α)) :
    (keysOf m).length = m.length := by
  simp [keysOf]

theorem idOracle_valid : OracleValid idOracle := by
  refine ⟨fun l => List.Perm.refl l, ?_, fun l => List.Perm.refl l⟩
  intro a l h
  cases l with
  | nil => exact absurd rfl h
  | cons x t =>
    show (x :: t).headD defaultPersona ∈ x :: t
    simp [List.headD]

/-- C1 as frozen is false: with a candidate list containing the same
persona twice (duplicate uuid), the sampler's uuid-keyed map collapses the
duplicates and only one persona is returned, not
`min(target, |candidates|) = 2`.  The exhibited outcome (`idOracle`) is a
valid realization of the random choices. -/
theorem sampleFromCandidates_size_counterexample :
    OracleValid idOracle ∧
      (sampleFromCandidates idOracle
        [mkTestPersona ['a'] ['X'], mkTestPersona ['a'] ['X']] 2).length ≠
        min 2 [mkTestPersona ['a'] ['X'], mkTestPersona ['a'] ['X']].length :=
  ⟨idOracle_valid, by decide⟩

/-- C1 (amended): for candidate lists whose personas carry pairwise
distinct uuids — the only lists the pipeline ever feeds the sampler — and
for every outcome of the random choices, `sampleFromCandidates` returns
exactly `min(target, |candidates|)` personas, and the returned cohort
never contains two personas with the same uuid. -/
theorem sampleFromCandidates_size_spec (o : SamplingOracle) (candidates : List Persona)
    (target : Nat) (hvalid : OracleValid o)
    (hn : (candidates.map (fun p => p.uuid)).Nodup) :
    (sampleFromCandidates o candidates target).length = min target candidates.length ∧
    ((sampleFromCandidates o candidates target).map (fun p => p.uuid)).Nodup := by
  rcases hvalid with ⟨hshA, hpick, hshF⟩
  by_cases hc : candidates.isEmpty = true
  · have hcnil : candidates = [] := List.isEmpty_iff.mp hc
    subst hcnil
    simp [sampleFromCandidates]
  · have hby : ∀ a, ∀ p ∈ areaGroup candidates a, p ∈ candidates :=
      fun a p hp => (List.mem_filter.mp hp).1
    have hD := diversityLoop_inv o.pickInArea target candidates hby hpick
      (o.shuffleAreas (candidateAreas candidates)) []
      (by simp [keysOf]) (by intro e he; simp at he) (Nat.zero_le _)
    obtain ⟨hDnd, hDok, hDle, -⟩ := hD
    have hunfold : sampleFromCandidates o candidates target =
        (if (diversityLoop o.pickInArea target (areaGroup candidates)
              (o.shuffleAreas (candidateAreas candidates)) []).length < target then
           fillLoop target (o.shuffleFill candidates)
             (diversityLoop o.pickInArea target (areaGroup candidates)
               (o.shuffleAreas (candidateAreas candidates)) [])
         else
           diversityLoop o.pickInArea target (areaGroup candidates)
             (o.shuffleAreas (candidateAreas candidates)) []).map (fun e => e.2) := by
      simp only [sampleFromCandidates, hc, Bool.false_eq_true, if_false]
    rw [hunfold]
    by_cases hfill : (diversityLoop o.pickInArea target (areaGroup candidates)
        (o.shuffleAreas (candidateAreas candidates)) []).length < target
    · rw [if_pos hfill]
      have hlmem : ∀ p ∈ o.shuffleFill candidates, p ∈ candidates :=
        fun p hp => (hshF candidates).mem_iff.mp hp
      obtain ⟨hRnd, hROk, hRle, -⟩ :=
        fillLoop_inv target candidates (o.shuffleFill candidates) _ hlmem hDnd hDok hDle
      have hsub2 : keysOf (fillLoop target (o.shuffleFill candidates)
          (diversityLoop o.pickInArea target (areaGroup candidates)
            (o.shuffleAreas (candidateAreas candidates)) [])) ⊆
          candidates.map (fun p => p.uuid) :=
        entriesOk_keys_subset _ _ hROk
      have hkeyle : (fillLoop target (o.shuffleFill candidates)
          (diversityLoop o.pickInArea target (areaGroup candidates)
            (o.shuffleAreas (candidateAreas candidates)) [])).length ≤
          candidates.length := by
        have h := (List.subperm_of_subset hRnd hsub2).length_le
        rwa [keysOf_length, List.length_map] at h
      by_cases hR2 : (fillLoop target (o.shuffleFill candidates)
          (diversityLoop o.pickInArea target (areaGroup candidates)
            (o.shuffleAreas (candidateAreas candidates)) [])).length < target
      · have hexh := fillLoop_exhaust target (o.shuffleFill candidates) _ hR2
        have hsub1 : candidates.map (fun p => p.uuid) ⊆
            keysOf (fillLoop target (o.shuffleFill candidates)
              (diversityLoop o.pickInArea target (areaGroup candidates)
                (o.shuffleAreas (candidateAreas candidates)) [])) := by
          intro k hk
          rcases List.mem_map.mp hk with ⟨p, hp, hpk⟩
          rw [← hpk]
          exact hexh p ((hshF candidates).mem_iff.mpr hp)
        have hnle : candidates.length ≤ (fillLoop target (o.shuffleFill candidates)
            (diversityLoop o.pickInArea target (areaGroup candidates)
              (o.shuffleAreas (candidateAreas candidates)) [])).length := by
          have h := (List.subperm_of_subset hn hsub1).length_le
          rwa [keysOf_length, List.length_map] at h
        have hRn : (fillLoop target (o.shuffleFill candidates)
            (diversityLoop o.pickInArea target (areaGroup candidates)
              (o.shuffleAreas (candidateAreas candidates)) [])).length =
            candidates.length := le_antisymm hkeyle hnle
        refine pickedProject_spec candidates target _ hRnd hROk ?_
        rw [hRn]
        have : candidates.length < target := hRn ▸ hR2
        omega
      · have hReq : (fillLoop target (o.shuffleFill candidates)
            (diversityLoop o.pickInArea target (areaGroup candidates)
              (o.shuffleAreas (candidateAreas candidates)) [])).length = target := by
          omega
        refine pickedProject_spec candidates target _ hRnd hROk ?_
        rw [hReq]
        have : target ≤ candidates.length := hReq ▸ hkeyle
        omega
    · rw [if_neg hfill]
      have hDeq : (diversityLoop o.pickInArea target (areaGroup candidates)
          (o.shuffleAreas (candidateAreas candidates)) []).length = target := by
        omega
      have hkeyle : (diversityLoop o.pickInArea target (areaGroup candidates)
          (o.shuffleAreas (candidateAreas candidates)) []).length ≤
          candidates.length := by
        have h := (List.subperm_of_subset hDnd (entriesOk_keys_subset _ _ hDok)).length_le
        rwa [keysOf_length, List.length_map] at h
      refine pickedProject_spec candidates target _ hDnd hDok ?_
      rw [hDeq]
      have : target ≤ candidates.length := hDeq ▸ hkeyle
      omega

/-- C1 (amended) witness: two distinct-uuid personas in distinct areas,
target 1, under the deterministic demo oracle. -/
theorem sampleFromCandidates_size_spec_witness :
    (sampleFromCandidates idOracle
        [mkTestPersona ['a'] ['X'], mkTestPersona ['b'] ['Y']] 1).length =
      min 1 [mkTestPersona ['a'] ['X'], mkTestPersona ['b'] ['Y']].length ∧
    ((sampleFromCandidates idOracle
        [mkTestPersona ['a'] ['X'], mkTestPersona ['b'] ['Y']] 1).map
      (fun p => p.uuid)).Nodup :=
  sampleFromCandidates_size_spec idOracle
    [mkTestPersona ['a'] ['X'], mkTestPersona ['b'] ['Y']] 1 idOracle_valid (by decide)

theorem diversityLoop_diverse (pick : Str → List Persona → Persona) (target : Nat)
    (candidates : List Persona)
    (hpick : ∀ a l, l ≠ [] → pick a l ∈ l)
    (hn : (candidates.map (fun p => p.uuid)).Nodup) :
    ∀ (as : List Str) (picked : List (Str × Persona)),
      as.Nodup →
      (∀ a ∈ as, areaGroup candidates a ≠ []) →
      EntriesOk candidates picked →
      (∀ e ∈ picked, e.2.planning_area ∉ as) →
      (picked.map (fun e => e.2.planning_area)).Nodup →
      picked.length ≤ target →
      (diversityLoop pick target (areaGroup candidates) as picked).length =
        min target (picked.length + as.length) ∧
      ((diversityLoop pick target (areaGroup candidates) as picked).map
        (fun e => e.2.planning_area)).Nodup ∧
      EntriesOk candidates (diversityLoop pick target (areaGroup candidates) as picked) := by
  intro as
  induction as with
  | nil =>
    intro picked _ _ hok _ hand hle
    refine ⟨?_, hand, hok⟩
    simp only [diversityLoop, List.length_nil]
    omega
  | cons area rest ih =>
    intro picked hasnd hane hok hfresh hand hle
    have hrestnd : rest.Nodup := (List.nodup_cons.mp hasnd).2
    have hanotin : area ∉ rest := (List.nodup_cons.mp hasnd).1
    by_cases hstop : target ≤ picked.length
    · simp only [diversityLoop, if_pos hstop, List.length_cons]
      refine ⟨?_, hand, hok⟩
      omega
    · have hlt : picked.length < target := lt_of_not_le hstop
      have hgrpne : areaGroup candidates area ≠ [] :=
        hane area (List.mem_cons_self area rest)
      cases hgrp : areaGroup candidates area with
      | nil => exact absurd hgrp hgrpne
      | cons x xs =>
        simp only [diversityLoop, if_neg hstop, hgrp]
        rw [← hgrp]
        have hsel : pick area (areaGroup candidates area) ∈ areaGroup candidates area :=
          hpick area _ hgrpne
        have hselc : pick area (areaGroup candidates area) ∈ candidates :=
          (List.mem_filter.mp hsel).1
        have hselarea : (pick area (areaGroup candidates area)).planning_area = area := by
          simpa using (List.mem_filter.mp hsel).2
        have hfreshkey : (pick area (areaGroup candidates area)).uuid ∉ keysOf picked := by
          intro hmem
          rcases List.mem_map.mp hmem with ⟨e, he, hkey⟩
          rcases hok e he with ⟨h1, h2⟩
          have huuid : e.2.uuid = (pick area (areaGroup candidates area)).uuid := by
            rw [← h1, hkey]
          have heq := List.inj_on_of_nodup_map hn h2 hselc huuid
          have harea := hfresh e he
          rw [heq, hselarea] at harea
          exact harea (List.mem_cons_self area rest)
        rw [mapSet_eq_append picked _ _ hfreshkey]
        have hok' : EntriesOk candidates
            (picked ++ [((pick area (areaGroup candidates area)).uuid,
              pick area (areaGroup candidates area))]) := by
          intro e he
          rcases List.mem_append.mp he with hm | hm
          · exact hok e hm
          · simp only [List.mem_singleton] at hm
            rw [hm]
            exact ⟨rfl, hselc⟩
        have hfresh' : ∀ e ∈ picked ++ [((pick area (areaGroup candidates area)).uuid,
            pick area (areaGroup candidates area))], e.2.planning_area ∉ rest := by
          intro e he
          rcases List.mem_append.mp he with hm | hm
          · exact fun hr => hfresh e hm (List.mem_cons_of_mem area hr)
          · simp only [List.mem_singleton] at hm
            rw [hm]
            show (pick area (areaGroup candidates area)).planning_area ∉ rest
            rw [hselarea]
            exact hanotin
        have hand' : ((picked ++ [((pick area (areaGroup candidates area)).uuid,
            pick area (areaGroup candidates area))]).map
            (fun e => e.2.planning_area)).Nodup := by
          rw [List.map_append]
          have hnotold : area ∉ picked.map (fun e => e.2.planning_area) := by
            intro hmem
            rcases List.mem_map.mp hmem with ⟨e, he, hkey⟩
            exact hfresh e he (hkey ▸ List.mem_cons_self area rest)
          simp only [List.map_cons, List.map_nil, hselarea]
          refine List.Nodup.append hand (List.nodup_singleton area) ?_
          rw [List.disjoint_singleton]
          exact hnotold
        have hle' : (picked ++ [((pick area (areaGroup candidates area)).uuid,
            pick area (areaGroup candidates area))]).length ≤ target := by
          simp only [List.length_append, List.length_singleton]
          omega
        have hane' : ∀ a ∈ rest, areaGroup candidates a ≠ [] :=
          fun a ha => hane a (List.mem_cons_of_mem area ha)
        rcases ih (picked ++ [((pick area (areaGroup candidates area)).uuid,
            pick area (areaGroup candidates area))]) hrestnd hane' hok' hfresh' hand' hle'
          with ⟨hl, hnd2, hok2⟩
        refine ⟨?_, hnd2, hok2⟩
        simp only [List.length_append, List.length_singleton, List.length_cons,
          List.length_nil] at hl ⊢
        omega

/-- C2: for candidates with pairwise-distinct uuids, if the candidate pool
is at least as large as the target and spans at least `target` distinct
(already normalized) planning areas, then every outcome of the random
choices yields a cohort spanning at least `target` distinct areas: the
diversity phase picks one persona per area and, able to satisfy the whole
demand alone, leaves nothing for the fill phase. -/
theorem sampleFromCandidates_area_diversity (o : SamplingOracle)
    (candidates : List Persona) (target : Nat) (hvalid : OracleValid o)
    (hn : (candidates.map (fun p => p.uuid)).Nodup)
    (hcard : target ≤ candidates.length)
    (hareas : target ≤ (candidateAreas candidates).length) :
    target ≤ (((sampleFromCandidates o candidates target).map
      (fun p => p.planning_area)).dedup).length := by
  rcases hvalid with ⟨hshA, hpick, hshF⟩
  by_cases hc : candidates.isEmpty = true
  · have hcnil : candidates = [] := List.isEmpty_iff.mp hc
    subst hcnil
    have : target = 0 := by
      simpa [candidateAreas] using hareas
    simp [this]
  · have hdn : (candidateAreas candidates).Nodup := by
      unfold candidateAreas
      exact List.nodup_dedup _
    have hareasnd : (o.shuffleAreas (candidateAreas candidates)).Nodup :=
      ((hshA (candidateAreas candidates)).nodup_iff).mpr hdn
    have hlenareas : (o.shuffleAreas (candidateAreas candidates)).length =
        (candidateAreas candidates).length :=
      (hshA (candidateAreas candidates)).length_eq
    have hgrpne : ∀ a ∈ o.shuffleAreas (candidateAreas candidates),
        areaGroup candidates a ≠ [] := by
      intro a ha
      have ha2 : a ∈ candidateAreas candidates :=
        (hshA (candidateAreas candidates)).mem_iff.mp ha
      have ha3 : a ∈ candidates.map (fun p => p.planning_area) :=
        List.mem_dedup.mp ha2
      rcases List.mem_map.mp ha3 with ⟨p, hp, hpa⟩
      exact List.ne_nil_of_mem (List.mem_filter.mpr ⟨hp, by simp [hpa]⟩)
    rcases diversityLoop_diverse o.pickInArea target candidates hpick hn
        (o.shuffleAreas (candidateAreas candidates)) [] hareasnd hgrpne
        (by intro e he; simp at he) (by intro e he; simp at he)
        (by simp) (Nat.zero_le _) with ⟨hDlen, hDand, hDok⟩
    have hDlen2 : (diversityLoop o.pickInArea target (areaGroup candidates)
        (o.shuffleAreas (candidateAreas candidates)) []).length = target := by
      rw [hDlen, List.length_nil, hlenareas]
      omega
    have hunfold : sampleFromCandidates o candidates target =
        (diversityLoop o.pickInArea target (areaGroup candidates)
          (o.shuffleAreas (candidateAreas candidates)) []).map (fun e => e.2) := by
      simp only [sampleFromCandidates, hc, Bool.false_eq_true, if_false]
      rw [if_neg (by omega)]
    rw [hunfold]
    have hmm : ((diversityLoop o.pickInArea target (areaGroup candidates)
        (o.shuffleAreas (candidateAreas candidates)) []).map (fun e => e.2)).map
        (fun p => p.planning_area) =
        (diversityLoop o.pickInArea target (areaGroup candidates)
          (o.shuffleAreas (candidateAreas candidates)) []).map
          (fun e => e.2.planning_area) := by
      rw [List.map_map]
      rfl
    rw [hmm, List.Nodup.dedup hDand, List.length_map, hDlen2]

/-- C2 witness: three distinct-uuid candidates over two areas, target 2,
under the deterministic demo oracle. -/
theorem sampleFromCandidates_area_diversity_witness :
    2 ≤ (((sampleFromCandidates idOracle
        [mkTestPersona ['a'] ['X'], mkTestPersona ['b'] ['Y'],
          mkTestPersona ['c'] ['X']] 2).map
      (fun p => p.planning_area)).dedup).length :=
  sampleFromCandidates_area_diversity idOracle
    [mkTestPersona ['a'] ['X'], mkTestPersona ['b'] ['Y'], mkTestPersona ['c'] ['X']]
    2 idOracle_valid (by decide) (by decide) (by decide)

/-- C3: `filterPersonas` returns a subsequence of its input (a subset in
input order), and every returned persona satisfies every predicate active
in the filter specification: age inside the order-corrected range,
case-insensitive sex equality, case-insensitive exact membership for the
explicit occupation/area sets, and case-insensitive substring match for
the occupation/area text queries, with set and substring constraints both
enforced when both are present. -/
theorem filterPersonas_spec (personas : List Persona) (filters : SamplingFilters) :
    (filterPersonas personas filters).Sublist personas ∧
    ∀ p ∈ filterPersonas personas filters, MatchesFilterSpec filters p := by
  constructor
  · simp only [filterPersonas]
    exact List.filter_sublist _
  · intro p hp
    simp only [filterPersonas] at hp
    rw [List.mem_filter] at hp
    obtain ⟨-, hpred⟩ := hp
    split_ifs at hpred with h1 h2 h3 h4 h5 h6
    refine ⟨?_, ?_, ?_, ?_, ?_, ?_⟩
    · simp only [Bool.or_eq_true, decide_eq_true_eq, not_or] at h1
      exact ⟨not_lt.mp h1.1, not_lt.mp h1.2⟩
    · intro hact
      by_contra hne
      apply h2
      rw [Bool.and_eq_true]
      refine ⟨hact, ?_⟩
      simp only [Bool.not_eq_true', decide_eq_false_iff_not]
      exact hne
    · intro hne
      by_contra hmem
      apply h3
      rw [Bool.and_eq_true]
      constructor
      · simp only [Bool.not_eq_true', List.isEmpty_eq_false]
        exact hne
      · simp only [Bool.not_eq_true', List.any_eq_false, decide_eq_true_eq]
        intro q hq hqx
        exact hmem (hqx ▸ hq)
    · intro hne
      by_contra hmem
      apply h4
      rw [Bool.and_eq_true]
      constructor
      · simp only [Bool.not_eq_true', List.isEmpty_eq_false]
        exact hne
      · simp only [Bool.not_eq_true', List.any_eq_false, decide_eq_true_eq]
        intro q hq hqx
        exact hmem (hqx ▸ hq)
    · intro hact
      by_contra hni
      apply h5
      rw [Bool.and_eq_true]
      refine ⟨hact, ?_⟩
      rw [Bool.not_eq_true']
      cases hc : strIncludes (lowerStr p.occupation)
          ((filters.occupation_query.map (fun s => trimStr (lowerStr s))).getD []) with
      | false => rfl
      | true => exact absurd hc hni
    · intro hact
      by_contra hni
      apply h6
      rw [Bool.and_eq_true]
      refine ⟨hact, ?_⟩
      rw [Bool.not_eq_true']
      cases hc : strIncludes (lowerStr p.planning_area)
          ((filters.planning_area_query.map (fun s => trimStr (lowerStr s))).getD []) with
      | false => rfl
      | true => exact absurd hc hni

/-- C3 witness: the concrete filter run of `src/lib/sampling.test.ts`
(age 20-25, sex `female`, queries `stud`/`tam`) applied to three personas;
the returned persona `a` satisfies every active predicate. -/
theorem filterPersonas_spec_witness :
    (filterPersonas demoFilterPersonas demoFilters).Sublist demoFilterPersonas ∧
    MatchesFilterSpec demoFilters demoPersonaA :=
  ⟨(filterPersonas_spec demoFilterPersonas demoFilters).1,
    (filterPersonas_spec demoFilterPersonas demoFilters).2 demoPersonaA (by decide)⟩

theorem round3_bounds (x : ℚ) (h1 : -2 ≤ x) (h2 : x ≤ 2) :
    -2 ≤ round3 x ∧ round3 x ≤ 2 := by
  have hu : round (x * 1000) ≤ 2000 := by
    rw [round_eq]
    have h3 : ⌊x * 1000 + 1/2⌋ ≤ ⌊(2000 + 1/2 : ℚ)⌋ := Int.floor_le_floor (by linarith)
    have h4 : (⌊(2000 + 1/2 : ℚ)⌋ : ℤ) = 2000 := by norm_num [Int.floor_eq_iff]
    omega
  have hl : -2000 ≤ round (x * 1000) := by
    rw [round_eq]
    have h3 : ⌊(-2000 + 1/2 : ℚ)⌋ ≤ ⌊x * 1000 + 1/2⌋ := Int.floor_le_floor (by linarith)
    have h4 : (⌊(-2000 + 1/2 : ℚ)⌋ : ℤ) = -2000 := by norm_num [Int.floor_eq_iff]
    omega
  unfold round3
  constructor
  · rw [le_div_iff₀ (by norm_num : (0:ℚ) < 1000)]
    have hc : ((-2000 : ℤ) : ℚ) ≤ (round (x * 1000) : ℚ) := by exact_mod_cast hl
    push_cast at hc
    linarith
  · rw [div_le_iff₀ (by norm_num : (0:ℚ) < 1000)]
    have hc : ((round (x * 1000) : ℤ) : ℚ) ≤ ((2000 : ℤ) : ℚ) := by exact_mod_cast hu
    push_cast at hc
    linarith

/-- C6 as frozen is false: the code sets
`score = Number((stance * confidence).toFixed(3))`, a 3-decimal rounding,
so with stance 1 and confidence 0.6666 the stored score is 0.667, not
stance × confidence = 0.6666. -/
theorem generateReplySuccess_score_counterexample :
    (generateReplySuccess [] [] 1 (6666/10000)).stance = 1 ∧
    (generateReplySuccess [] [] 1 (6666/10000)).confidence = 6666/10000 ∧
    (generateReplySuccess [] [] 1 (6666/10000)).score ≠
      ((generateReplySuccess [] [] 1 (6666/10000)).stance : ℚ) *
        (generateReplySuccess [] [] 1 (6666/10000)).confidence := by
  have hconf : (generateReplySuccess [] [] 1 (6666/10000)).confidence = 6666/10000 := by
    show max 0 (min 1 (6666/10000 : ℚ)) = 6666/10000
    norm_num
  have hscore : (generateReplySuccess [] [] 1 (6666/10000)).score = 667/1000 := by
    show round3 (((1 : ℤ) : ℚ) * max 0 (min 1 (6666/10000 : ℚ))) = 667/1000
    rw [show (((1 : ℤ) : ℚ) * max 0 (min 1 (6666/10000 : ℚ))) = 6666/10000 by norm_num]
    unfold round3
    rw [round_eq]
    norm_num [Int.floor_eq_iff]
  refine ⟨rfl, hconf, ?_⟩
  rw [hscore, hconf]
  show (667/1000 : ℚ) ≠ ((1 : ℤ) : ℚ) * (6666/10000)
  norm_num

/-- C6 (amended): for every successful reply (stance an integer in
`[-2,2]`, confidence clamped to `[0,1]`), the derived score equals
stance × confidence rounded to 3 decimal places and lies in `[-2,2]`, and
the derived sentiment is `positive` iff `stance > 0`, `negative` iff
`stance < 0` and `neutral` iff `stance = 0`; both fields exist only as
outputs of this derivation. -/
theorem generateReplySuccess_spec (answer reasoning : Str) (stance : Int)
    (rawConfidence : ℚ) (hs : -2 ≤ stance ∧ stance ≤ 2) :
    (generateReplySuccess answer reasoning stance rawConfidence).score =
      round3 ((stance : ℚ) *
        (generateReplySuccess answer reasoning stance rawConfidence).confidence) ∧
    0 ≤ (generateReplySuccess answer reasoning stance rawConfidence).confidence ∧
    (generateReplySuccess answer reasoning stance rawConfidence).confidence ≤ 1 ∧
    -2 ≤ (generateReplySuccess answer reasoning stance rawConfidence).score ∧
    (generateReplySuccess answer reasoning stance rawConfidence).score ≤ 2 ∧
    ((generateReplySuccess answer reasoning stance rawConfidence).sentiment =
      .positive ↔ 0 < stance) ∧
    ((generateReplySuccess answer reasoning stance rawConfidence).sentiment =
      .negative ↔ stance < 0) ∧
    ((generateReplySuccess answer reasoning stance rawConfidence).sentiment =
      .neutral ↔ stance = 0) := by
  obtain ⟨hs1, hs2⟩ := hs
  have hc0 : (0 : ℚ) ≤ max 0 (min 1 rawConfidence) := le_max_left 0 _
  have hc1 : max 0 (min 1 rawConfidence) ≤ 1 :=
    max_le (by norm_num) (min_le_left 1 _)
  have hsa : (-2 : ℚ) ≤ (stance : ℚ) := by exact_mod_cast hs1
  have hsb : (stance : ℚ) ≤ 2 := by exact_mod_cast hs2
  have hm1 : (-2 : ℚ) ≤ (stance : ℚ) * max 0 (min 1 rawConfidence) := by nlinarith
  have hm2 : (stance : ℚ) * max 0 (min 1 rawConfidence) ≤ 2 := by nlinarith
  obtain ⟨hb1, hb2⟩ := round3_bounds _ hm1 hm2
  refine ⟨rfl, hc0, hc1, hb1, hb2, ?_, ?_, ?_⟩
  · show stanceToSentiment stance = .positive ↔ 0 < stance
    unfold stanceToSentiment
    split_ifs with ha hb <;> simp_all <;> omega
  · show stanceToSentiment stance = .negative ↔ stance < 0
    unfold stanceToSentiment
    split_ifs with ha hb <;> simp_all <;> omega
  · show stanceToSentiment stance = .neutral ↔ stance = 0
    unfold stanceToSentiment
    split_ifs with ha hb <;> simp_all <;> omega

/-- C6 (amended) witness: stance 2, raw confidence 0.5. -/
theorem generateReplySuccess_spec_witness :
    (generateReplySuccess [] [] 2 (1/2)).score =
      round3 (((2 : ℤ) : ℚ) * (generateReplySuccess [] [] 2 (1/2)).confidence) ∧
    0 ≤ (generateReplySuccess [] [] 2 (1/2)).confidence ∧
    (generateReplySuccess [] [] 2 (1/2)).confidence ≤ 1 ∧
    -2 ≤ (generateReplySuccess [] [] 2 (1/2)).score ∧
    (generateReplySuccess [] [] 2 (1/2)).score ≤ 2 ∧
    ((generateReplySuccess [] [] 2 (1/2)).sentiment = .positive ↔ 0 < (2 : ℤ)) ∧
    ((generateReplySuccess [] [] 2 (1/2)).sentiment = .negative ↔ (2 : ℤ) < 0) ∧
    ((generateReplySuccess [] [] 2 (1/2)).sentiment = .neutral ↔ (2 : ℤ) = 0) :=
  generateReplySuccess_spec [] [] 2 (1/2) (by decide)

/-- C7: after the fan-out settles, fewer than 5 successful replies yields
the 502 insufficient-quorum failure (even though some replies succeeded);
with 5 or more successes the handler returns the 200 payload built from
the successes only, carrying the warning
`"N persona responses failed and were skipped."` exactly when N > 0 calls
failed, and no warning when none failed. -/
theorem fanOutDecision_spec {α : Type} (settled : List (SettledResult α)) :
    ((settledSuccesses settled).length < 5 →
      fanOutDecision settled =
        AskOutcome.quorumFailure 502
          (settled.length - (settledSuccesses settled).length)
          (settledSuccesses settled).length) ∧
    (5 ≤ (settledSuccesses settled).length →
      0 < settled.length - (settledSuccesses settled).length →
      fanOutDecision settled =
        AskOutcome.ok 200 (settledSuccesses settled)
          [toString (settled.length - (settledSuccesses settled).length) ++
            " persona responses failed and were skipped."]) ∧
    (5 ≤ (settledSuccesses settled).length →
      settled.length - (settledSuccesses settled).length = 0 →
      fanOutDecision settled = AskOutcome.ok 200 (settledSuccesses settled) []) := by
  refine ⟨?_, ?_, ?_⟩
  · intro h
    simp only [fanOutDecision]
    rw [if_pos h]
  · intro h1 h2
    simp only [fanOutDecision]
    rw [if_neg (by omega), if_pos h2]
  · intro h1 h2
    simp only [fanOutDecision]
    rw [if_neg (by omega), if_neg (by omega)]

/-- C7 witness: 5 successes and 2 failures meet the threshold and carry
the exact `"2 persona responses failed and were skipped."` warning. -/
theorem fanOutDecision_spec_witness :
    fanOutDecision
        (List.replicate 5 (SettledResult.fulfilled (0 : Nat)) ++
          [SettledResult.rejected "boom", SettledResult.rejected "slow"]) =
      AskOutcome.ok 200
        (settledSuccesses
          (List.replicate 5 (SettledResult.fulfilled (0 : Nat)) ++
            [SettledResult.rejected "boom", SettledResult.rejected "slow"]))
        [toString
            ((List.replicate 5 (SettledResult.fulfilled (0 : Nat)) ++
              [SettledResult.rejected "boom", SettledResult.rejected "slow"]).length -
              (settledSuccesses
                (List.replicate 5 (SettledResult.fulfilled (0 : Nat)) ++
                  [SettledResult.rejected "boom", SettledResult.rejected "slow"])).length) ++
          " persona responses failed and were skipped."] :=
  (fanOutDecision_spec
    (List.replicate 5 (SettledResult.fulfilled (0 : Nat)) ++
      [SettledResult.rejected "boom", SettledResult.rejected "slow"])).2.1
    (by decide) (by decide)

/-- C8: a filter specification matching zero candidates is surfaced as the
404 no-match error before any fan-out work: the outcome is independent of
the reply generator, and the no-match error is a different constructor
(and status) from the post-fan-out 502 quorum failure. -/
theorem askHandler_noMatch_spec {α : Type} (o : SamplingOracle)
    (gen gen' : Persona → SettledResult α) (personas : List Persona)
    (filters : SamplingFilters) (sampleSize : Nat)
    (hempty : filterPersonas personas filters = []) :
    askHandler o gen personas filters sampleSize = AskOutcome.noMatch 404 ∧
    askHandler o gen personas filters sampleSize =
      askHandler o gen' personas filters sampleSize ∧
    (∀ st f s, (AskOutcome.noMatch 404 : AskOutcome α) ≠
      AskOutcome.quorumFailure st f s) := by
  have h1 : askHandler o gen personas filters sampleSize = AskOutcome.noMatch 404 := by
    simp [askHandler, hempty, sampleFromCandidates]
  have h2 : askHandler o gen' personas filters sampleSize = AskOutcome.noMatch 404 := by
    simp [askHandler, hempty, sampleFromCandidates]
  exact ⟨h1, h1.trans h2.symm, fun st f s h => AskOutcome.noConfusion h⟩

/-- C8 witness: a 30-year-old persona against the 20-25 filter spec leaves
zero candidates; the handler 404s identically under an all-failing and an
all-succeeding generator. -/
theorem askHandler_noMatch_spec_witness :
    askHandler idOracle demoGenFail [mkTestPersona ['z'] ['X']] demoFilters 20 =
      AskOutcome.noMatch 404 ∧
    askHandler idOracle demoGenFail [mkTestPersona ['z'] ['X']] demoFilters 20 =
      askHandler idOracle demoGenOk [mkTestPersona ['z'] ['X']] demoFilters 20 ∧
    (∀ st f s, (AskOutcome.noMatch 404 : AskOutcome Nat) ≠
      AskOutcome.quorumFailure st f s) :=
  askHandler_noMatch_spec idOracle demoGenFail demoGenOk
    [mkTestPersona ['z'] ['X']] demoFilters 20 (by decide)

/-- C9: with the module-level cache made explicit state, a call with a
populated cache returns the cached store unchanged (no rebuild, no state
change), and after a first (cold) load any second call returns the very
store the first call produced — regardless of what the dataset argument
would now contain — and leaves the cache untouched. -/
theorem getPersonaStore_idempotent (dataset dataset' : List Persona)
    (store : PersonaStore) :
    getPersonaStore (some store) dataset' = (store, some store) ∧
    (getPersonaStore (getPersonaStore none dataset).2 dataset').1 =
      (getPersonaStore none dataset).1 ∧
    (getPersonaStore (getPersonaStore none dataset).2 dataset').2 =
      (getPersonaStore none dataset).2 :=
  ⟨rfl, rfl, rfl⟩

end AskSingapore
